import Mathlib

/-!
Shallow embedding of the ILRMA blind source separation routine from
pyroomacoustics/bss/ILRMA.py, together with theorems settling the frozen
claims about it.

Modelling conventions:
* numpy float64 scalars are modelled as exact rationals extended with the
  IEEE special values +inf, -inf and NaN (type FV).  Rounding is idealized
  (exact rational arithmetic), but the special-value propagation rules that
  the control flow of the program depends on (division by zero giving inf,
  0 * inf = NaN, comparisons with NaN being false) follow IEEE semantics.
* numpy complex128 scalars are pairs of FV (type CF).
* np.power(x, 0.5) is square root.  Rational square roots are computed by
  ratSqrt, which is exact on perfect squares (IEEE sqrt is exact on exactly
  representable squares); every square root evaluated by a theorem below is
  taken at a perfect square, 0, an infinity or NaN.
* np.linalg.inv is modelled by the adjugate formula, which agrees with the
  exact value of the LU-based inverse on invertible matrices.
* Arrays are total functions on Fin-index tuples; in-place numpy updates
  become functional updates of an explicit state record (IState).
* The stochastic initialization T = abs(rand(...)), V = abs(rand(...)) is
  modelled by taking the drawn values T0, V0 as inputs of the embedding.
-/

namespace PyIlrma

/-- Euclidean gcd with explicit fuel, so that it is structurally recursive
and reduces inside the kernel. -/
def gcdFuel : ℕ → ℕ → ℕ → ℕ
  | 0, _, b => b
  | _ + 1, 0, b => b
  | fuel + 1, a + 1, b => gcdFuel fuel (b % (a + 1)) (a + 1)

/-- Greatest common divisor (kernel-reducible). -/
def gcdN (a b : ℕ) : ℕ := gcdFuel (a + 1) a b

/-- Integer square root by digit recursion with explicit fuel. -/
def isqrtFuel : ℕ → ℕ → ℕ
  | 0, _ => 0
  | fuel + 1, n =>
      if n < 2 then n
      else
        let r := 2 * isqrtFuel fuel (n / 4)
        if (r + 1) * (r + 1) ≤ n then r + 1 else r

/-- Integer square root (kernel-reducible); exact on perfect squares. -/
def isqrt (n : ℕ) : ℕ := isqrtFuel n n

/-- An exact rational in lowest terms with positive denominator (kernel
reducible, unlike Mathlib's ℚ whose normalization is not structurally
recursive).  Every value built by the smart constructor mkQ and the
operations below is normalized, so structural equality is rational
equality. -/
structure Q where
  num : ℤ
  den : ℕ
deriving DecidableEq, Repr

instance (n : ℕ) : OfNat Q n := ⟨⟨Int.ofNat n, 1⟩⟩

instance : NatCast Q := ⟨fun n => ⟨Int.ofNat n, 1⟩⟩

namespace Q

/-- Normalized rational n / d (junk ⟨0, 0⟩ on d = 0, which no operation of
the model ever produces: division by zero rationals is intercepted at the
float level). -/
def mk2 (n d : ℤ) : Q :=
  if d = 0 then ⟨0, 0⟩
  else
    let s : ℤ := if d < 0 then -1 else 1
    let n2 := s * n
    let d2 := (s * d).toNat
    let g := gcdN n2.natAbs d2
    ⟨n2 / (g : ℤ), d2 / g⟩

def add (x y : Q) : Q := mk2 (x.num * (y.den : ℤ) + y.num * (x.den : ℤ)) ((x.den : ℤ) * (y.den : ℤ))

def neg (x : Q) : Q := ⟨-x.num, x.den⟩

def sub (x y : Q) : Q := add x (neg y)

def mul (x y : Q) : Q := mk2 (x.num * y.num) ((x.den : ℤ) * (y.den : ℤ))

def div (x y : Q) : Q := mk2 (x.num * (y.den : ℤ)) ((x.den : ℤ) * y.num)

/-- Strict order, by cross-multiplication (denominators are positive). -/
def blt (x y : Q) : Bool := decide (x.num * (y.den : ℤ) < y.num * (x.den : ℤ))

/-- Non-strict order, by cross-multiplication. -/
def ble (x y : Q) : Bool := decide (x.num * (y.den : ℤ) ≤ y.num * (x.den : ℤ))

end Q

/-- A float64 value: an exact rational, +inf, -inf, or NaN. -/
inductive FV where
  | val : Q → FV
  | inf : FV
  | ninf : FV
  | nan : FV
deriving DecidableEq, Repr

namespace FV

/-- IEEE addition (idealized to exact rational addition on finite values). -/
def add : FV → FV → FV
  | val a, val b => val (Q.add a b)
  | val _, inf => inf
  | inf, val _ => inf
  | inf, inf => inf
  | val _, ninf => ninf
  | ninf, val _ => ninf
  | ninf, ninf => ninf
  | _, _ => nan

/-- IEEE negation. -/
def neg : FV → FV
  | val a => val (Q.neg a)
  | inf => ninf
  | ninf => inf
  | nan => nan

/-- IEEE subtraction. -/
def sub (x y : FV) : FV := add x (neg y)

/-- IEEE multiplication; 0 * inf = NaN. -/
def mul : FV → FV → FV
  | val a, val b => val (Q.mul a b)
  | val a, inf => if a = 0 then nan else if Q.blt 0 a then inf else ninf
  | inf, val a => if a = 0 then nan else if Q.blt 0 a then inf else ninf
  | val a, ninf => if a = 0 then nan else if Q.blt 0 a then ninf else inf
  | ninf, val a => if a = 0 then nan else if Q.blt 0 a then ninf else inf
  | inf, inf => inf
  | ninf, ninf => inf
  | inf, ninf => ninf
  | ninf, inf => ninf
  | _, _ => nan

/-- IEEE division; finite / 0 is a signed infinity, 0 / 0 is NaN. -/
def div : FV → FV → FV
  | val a, val b =>
      if b = 0 then (if a = 0 then nan else if Q.blt 0 a then inf else ninf)
      else val (Q.div a b)
  | val _, inf => val 0
  | val _, ninf => val 0
  | inf, val b => if Q.ble 0 b then inf else ninf
  | ninf, val b => if Q.ble 0 b then ninf else inf
  | _, _ => nan

/-- np.power(x, -1.): the IEEE reciprocal (0 maps to +inf). -/
def powNeg1 (x : FV) : FV := div (val 1) x

/-- np.power(x, -2.): the IEEE reciprocal of the square (0 maps to +inf). -/
def powNeg2 (x : FV) : FV := div (val 1) (mul x x)

/-- Rational square root helper: exact on perfect squares (the only finite
points at which the development evaluates a square root). -/
def ratSqrt (q : Q) : Q := Q.mk2 (Int.ofNat (isqrt q.num.toNat)) (Int.ofNat (isqrt q.den))

/-- np.power(x, 0.5) on real values: NaN on negatives, per IEEE. -/
def sqrt : FV → FV
  | val a => if Q.blt a 0 then nan else val (ratSqrt a)
  | inf => inf
  | ninf => nan
  | nan => nan

/-- IEEE less-than: any comparison involving NaN is false. -/
def lt : FV → FV → Bool
  | val a, val b => Q.blt a b
  | val _, inf => true
  | inf, val _ => false
  | ninf, val _ => true
  | val _, ninf => false
  | ninf, inf => true
  | inf, ninf => false
  | inf, inf => false
  | ninf, ninf => false
  | _, _ => false

/-- IEEE greater-or-equal against a rational bound: false on NaN. -/
def geQ (x : FV) (c : Q) : Bool :=
  match x with
  | val a => Q.ble c a
  | inf => true
  | ninf => false
  | nan => false

end FV

/-- A complex128 value: a pair of float64 components. -/
structure CF where
  re : FV
  im : FV
deriving DecidableEq, Repr

namespace CF

def zero : CF := ⟨FV.val 0, FV.val 0⟩

def one : CF := ⟨FV.val 1, FV.val 0⟩

def ofQ (a b : Q) : CF := ⟨FV.val a, FV.val b⟩

def add (x y : CF) : CF := ⟨FV.add x.re y.re, FV.add x.im y.im⟩

def mul (x y : CF) : CF :=
  ⟨FV.sub (FV.mul x.re y.re) (FV.mul x.im y.im),
   FV.add (FV.mul x.re y.im) (FV.mul x.im y.re)⟩

/-- Complex conjugation (np.conj / np.conjugate). -/
def conj (x : CF) : CF := ⟨x.re, FV.neg x.im⟩

/-- Squared magnitude; np.power(np.abs(z), 2.) evaluates to re² + im². -/
def absSq (x : CF) : FV := FV.add (FV.mul x.re x.re) (FV.mul x.im x.im)

/-- Complex division z / w = z * conj(w) / |w|². -/
def div (x y : CF) : CF :=
  let d := absSq y
  let n := mul x (conj y)
  ⟨FV.div n.re d, FV.div n.im d⟩

/-- np.power(z, 0.5): the principal complex square root.  On values with a
non-finite component the result is NaN in both components, matching numpy
on the NaN inputs reached by the program. -/
def sqrtC (z : CF) : CF :=
  match z.re, z.im with
  | FV.val a, FV.val b =>
      let m := FV.ratSqrt (Q.add (Q.mul a a) (Q.mul b b))
      let r := FV.ratSqrt (Q.div (Q.add m a) 2)
      let i := FV.ratSqrt (Q.div (Q.sub m a) 2)
      ⟨FV.val r, FV.val (if Q.blt b 0 then Q.neg i else i)⟩
  | _, _ => ⟨FV.nan, FV.nan⟩

end CF

/-- Lift a real float to a complex float (numpy real-to-complex cast). -/
def FV.toC (a : FV) : CF := ⟨a, FV.val 0⟩

/-- Ordered sum of real floats (numpy reduction over an axis). -/
def sumFV (n : ℕ) (f : Fin n → FV) : FV :=
  ((List.finRange n).map f).foldr FV.add (FV.val 0)

/-- Ordered sum of complex floats (numpy reduction over an axis). -/
def sumCF (n : ℕ) (f : Fin n → CF) : CF :=
  ((List.finRange n).map f).foldr CF.add CF.zero

/-- np.eye(n, m): rectangular identity. -/
def npEye (n m : ℕ) : Fin n → Fin m → CF :=
  fun i j => if (i : ℕ) = (j : ℕ) then CF.one else CF.zero

/-- The sign (-1)^k as a complex float. -/
def signC (k : ℕ) : CF := if k % 2 = 0 then CF.one else CF.ofQ (Q.neg 1) 0

/-- Determinant by Laplace expansion along the first row. -/
def detC : (n : ℕ) → (Fin n → Fin n → CF) → CF
  | 0, _ => CF.one
  | n + 1, A =>
      sumCF (n + 1) (fun j =>
        CF.mul (CF.mul (signC j) (A 0 j))
          (detC n (fun a b => A a.succ (j.succAbove b))))

/-- np.linalg.inv modelled by the adjugate formula: entry (i, j) is the
(j, i) cofactor divided by the determinant.  Agrees with the exact value of
the LU-based inverse on invertible matrices. -/
def invC : (n : ℕ) → (Fin n → Fin n → CF) → Fin n → Fin n → CF
  | 0, _ => fun i _ => i.elim0
  | n + 1, A => fun i j =>
      CF.div
        (CF.mul (signC ((i : ℕ) + (j : ℕ)))
          (detC n (fun a b => A (j.succAbove a) (i.succAbove b))))
        (detC (n + 1) A)

/-!
The algorithm.  Index conventions (after the `X = np.transpose(X, (1, 0, 2))`
at the top of ILRMA): F frequency bins, N time frames, C channels, K NMF
components; the assert makes n_src = C, so the source axis is Fin C.
-/

/-- Modelled from the spec: the external projection_back interface
(pyroomacoustics/bss/common.py, not under src/).  It receives the current
separated spectrogram and the mixture (from which the code passes the
reference channel X[:,:,0]) and returns a complex scaling array which the
engine applies by conjugate multiplication. -/
def PBfun (F N C : ℕ) : Type :=
  (Fin F → Fin N → Fin C → CF) → (Fin F → Fin N → Fin C → CF) → Fin N → Fin C → CF

/-- The mutable arrays of one in-progress ILRMA call, plus the list of
arguments handed to the progress callback so far (`trace`).  `X` is the
(transposed view of the) caller's mixture and `W0buf` the caller's supplied
initial demixing matrix; neither is ever written by the algorithm. -/
structure IState (F N C K : ℕ) where
  X : Fin F → Fin N → Fin C → CF
  W0buf : Fin F → Fin C → Fin C → CF
  W : Fin F → Fin C → Fin C → CF
  T : Fin F → Fin K → Fin C → FV
  V : Fin K → Fin N → Fin C → FV
  Y : Fin F → Fin N → Fin C → CF
  R : Fin F → Fin N → Fin C → FV
  P : Fin F → Fin N → Fin C → FV
  U : Fin F → Fin C → Fin C → Fin C → FV
  trace : List (ℕ × (Fin F → Fin N → Fin C → CF))

/-- Y[f,:,:] = np.dot(X[f,:,:], np.conj(W[f,:,:])), for every f (the demix
helper; it overwrites Y, modelled by returning the new Y array). -/
def demix {F N C : ℕ} (X : Fin F → Fin N → Fin C → CF)
    (W : Fin F → Fin C → Fin C → CF) : Fin F → Fin N → Fin C → CF :=
  fun f t s => sumCF C (fun c => CF.mul (X f t c) (CF.conj (W f c s)))

/-- R[:,:,s] entrywise: np.dot(T[:,:,s], V[:,:,s]). -/
def dotTV {F N C K : ℕ} (T : Fin F → Fin K → Fin C → FV)
    (V : Fin K → Fin N → Fin C → FV) (f : Fin F) (t : Fin N) (s : Fin C) : FV :=
  sumFV K (fun k => FV.mul (T f k s) (V k t s))

/-- The R produced by `for n in range(0, n_src - 1): R[:,:,n] = dot(T, V)`
acting on the zero-initialized R: the loop bound n_src - 1 leaves the last
source's slice at zero. -/
def initR {F N C K : ℕ} (T : Fin F → Fin K → Fin C → FV)
    (V : Fin K → Fin N → Fin C → FV) : Fin F → Fin N → Fin C → FV :=
  fun f t s => if (s : ℕ) < C - 1 then dotTV T V f t s else FV.val 0

/-- The multiplicative T update for source s (lines 108-110):
T[:,:,s] *= (dot(P[:,:,s] * R[:,:,s]^-2, V[:,:,s].T) / dot(R[:,:,s]^-1, V[:,:,s].T))^0.5. -/
def updateT {F N C K : ℕ} (T : Fin F → Fin K → Fin C → FV)
    (V : Fin K → Fin N → Fin C → FV) (R P : Fin F → Fin N → Fin C → FV)
    (s : Fin C) : Fin F → Fin K → Fin C → FV :=
  fun f k s2 =>
    if s2 = s then
      FV.mul (T f k s) (FV.sqrt (FV.div
        (sumFV N (fun t => FV.mul (FV.mul (P f t s) (FV.powNeg2 (R f t s))) (V k t s)))
        (sumFV N (fun t => FV.mul (FV.powNeg1 (R f t s)) (V k t s)))))
    else T f k s2

/-- The elementwise floor A[A < 0.001] = 0.001.  NaN entries are unchanged
since the IEEE comparison with NaN is false. -/
def floorEps (x : FV) : FV :=
  if FV.lt x (FV.val ⟨1, 1000⟩) then FV.val ⟨1, 1000⟩ else x

/-- T[T < 0.001] = 0.001 applied to the whole basis array. -/
def floorT {F K C : ℕ} (T : Fin F → Fin K → Fin C → FV) : Fin F → Fin K → Fin C → FV :=
  fun f k s => floorEps (T f k s)

/-- V[V < 0.001] = 0.001 applied to the whole activation array. -/
def floorV {K N C : ℕ} (V : Fin K → Fin N → Fin C → FV) : Fin K → Fin N → Fin C → FV :=
  fun k t s => floorEps (V k t s)

/-- R[:, :, s] = np.dot(T[:, :, s], V[:, :, s]) (one-slice refresh). -/
def setRslice {F N C K : ℕ} (T : Fin F → Fin K → Fin C → FV)
    (V : Fin K → Fin N → Fin C → FV) (R : Fin F → Fin N → Fin C → FV)
    (s : Fin C) : Fin F → Fin N → Fin C → FV :=
  fun f t s2 => if s2 = s then dotTV T V f t s else R f t s2

/-- The multiplicative V update for source s (lines 115-117):
V[:,:,s] *= (dot(T[:,:,s].T, P[:,:,s] * R[:,:,s]^-2) / dot(T[:,:,s].T, R[:,:,s]^-1))^0.5. -/
def updateV {F N C K : ℕ} (T : Fin F → Fin K → Fin C → FV)
    (V : Fin K → Fin N → Fin C → FV) (R P : Fin F → Fin N → Fin C → FV)
    (s : Fin C) : Fin K → Fin N → Fin C → FV :=
  fun k t s2 =>
    if s2 = s then
      FV.mul (V k t s) (FV.sqrt (FV.div
        (sumFV F (fun f => FV.mul (T f k s) (FV.mul (P f t s) (FV.powNeg2 (R f t s)))))
        (sumFV F (fun f => FV.mul (T f k s) (FV.powNeg1 (R f t s))))))
    else V k t s2

/-- The complex weighted covariance computed on the right-hand side of the
U assignment (line 122-123), before it is stored:
transpose(dot(conj(X[f].T), X[f] * (R[f,:,s]^-1 ⊗ ones(C)))) / n_frames,
i.e. entry (i, j) = (Σ_t conj(X[f,t,j]) · X[f,t,i] · R[f,t,s]^-1) / N. -/
def covU {N C : ℕ} (Xf : Fin N → Fin C → CF) (Rfs : Fin N → FV) :
    Fin C → Fin C → CF :=
  fun i j =>
    CF.div
      (sumCF N (fun t =>
        CF.mul (CF.conj (Xf t j)) (CF.mul (Xf t i) (FV.toC (FV.powNeg1 (Rfs t))))))
      (CF.ofQ (N : Q) 0)

/-- What actually lands in U: U was allocated with np.zeros, a float64
array, so storing the complex covariance casts it to real and discards the
imaginary part (numpy ComplexWarning). -/
def Ucast {N C : ℕ} (Xf : Fin N → Fin C → CF) (Rfs : Fin N → FV) :
    Fin C → Fin C → FV :=
  fun i j => (covU Xf Rfs i j).re

/-- np.dot(W[f,:,:], U[f,s,:,:]) with the real U lifted to complex. -/
def WU {C : ℕ} (Wf : Fin C → Fin C → CF) (Ufs : Fin C → Fin C → FV) :
    Fin C → Fin C → CF :=
  fun a b => sumCF C (fun c => CF.mul (Wf a c) (FV.toC (Ufs c b)))

/-- W[f,s,:] = np.dot(np.linalg.inv(np.dot(W[f,:,:], U[f,s,:,:])), np.eye(n_src)[s].T). -/
def rowSolve {C : ℕ} (Wf : Fin C → Fin C → CF) (Ufs : Fin C → Fin C → FV)
    (s : Fin C) : Fin C → CF :=
  fun a => sumCF C (fun b => CF.mul (invC C (WU Wf Ufs) a b) (npEye C C s b))

/-- np.dot(np.dot(np.conjugate(w).T, U[f,s,:,:]), w): the quadratic form of
a row under U. -/
def quadForm {C : ℕ} (Ufs : Fin C → Fin C → FV) (w : Fin C → CF) : CF :=
  sumCF C (fun b =>
    CF.mul (sumCF C (fun a => CF.mul (CF.conj (w a)) (FV.toC (Ufs a b)))) (w b))

/-- W[f,s,:] = np.dot(W[f,s,:], np.power(quadForm, 0.5)): the row is
multiplied by the square root of its quadratic form under U. -/
def rowScale {C : ℕ} (Ufs : Fin C → Fin C → FV) (w : Fin C → CF) : Fin C → CF :=
  fun a => CF.mul (w a) (CF.sqrtC (quadForm Ufs w))

/-- The two demixing-row assignment lines (126-127) combined: solve, then
rescale the solved row. -/
def updateWrow {C : ℕ} (Wf : Fin C → Fin C → CF) (Ufs : Fin C → Fin C → FV)
    (s : Fin C) : Fin C → CF :=
  rowScale Ufs (rowSolve Wf Ufs s)

/-- The body of `for f in range(n_freq)` inside the source loop: store the
cast covariance into U[f,s] and overwrite row s of W[f]. -/
def innerFreq {F N C K : ℕ} (s : Fin C) (st : IState F N C K) (f : Fin F) :
    IState F N C K :=
  let Ufs : Fin C → Fin C → FV := Ucast (fun t c => st.X f t c) (fun t => st.R f t s)
  let w2 : Fin C → CF := updateWrow (fun a b => st.W f a b) Ufs s
  { st with
    U := fun f2 s2 i j => if f2 = f ∧ s2 = s then Ufs i j else st.U f2 s2 i j,
    W := fun f2 a b => if f2 = f ∧ a = s then w2 b else st.W f2 a b }

/-- The body of `for s in range(n_src)` (lines 107-127): T update, floor,
R refresh, V update, floor, R refresh, then the per-frequency covariance and
demixing-row updates. -/
def innerSrc {F N C K : ℕ} (st : IState F N C K) (s : Fin C) : IState F N C K :=
  let T1 := floorT (updateT st.T st.V st.R st.P s)
  let R1 := setRslice T1 st.V st.R s
  let V1 := floorV (updateV T1 st.V R1 st.P s)
  let R2 := setRslice T1 V1 R1 s
  (List.finRange F).foldl (innerFreq s) { st with T := T1, V := V1, R := R2 }

/-- Y * np.conj(z[None,:,:]) with z = projection_back(Y, X[:,:,0]). -/
def applyPB {F N C : ℕ} (pb : PBfun F N C) (Y X : Fin F → Fin N → Fin C → CF) :
    Fin F → Fin N → Fin C → CF :=
  fun f t s => CF.mul (Y f t s) (CF.conj (pb Y X t s))

/-- The array handed to the callback: the current Y, projection-back scaled
when proj_back is set (lines 98-103). -/
def cbArg {F N C K : ℕ} (pb : PBfun F N C) (proj_back : Bool)
    (st : IState F N C K) : Fin F → Fin N → Fin C → CF :=
  if proj_back then applyPB pb st.Y st.X else st.Y

/-- One iteration of `for epoch in range(n_iter)`: possibly invoke the
callback (callback not None and epoch % 10 == 0), then run the source loop. -/
def epochStep {F N C K : ℕ} (pb : PBfun F N C) (proj_back has_cb : Bool)
    (epoch : ℕ) (st : IState F N C K) : IState F N C K :=
  let st1 :=
    if has_cb = true ∧ epoch % 10 = 0 then
      { st with trace := st.trace ++ [(epoch, cbArg pb proj_back st)] }
    else st
  (List.finRange C).foldl innerSrc st1

/-- The state after the first k iterations of the main loop. -/
def runEpochs {F N C K : ℕ} (pb : PBfun F N C) (proj_back has_cb : Bool)
    (st : IState F N C K) : ℕ → IState F N C K
  | 0 => st
  | Nat.succ k => epochStep pb proj_back has_cb k (runEpochs pb proj_back has_cb st k)

/-- The state at the top of the main loop (lines 66-94): W from W0 (copied)
or identity, T and V from the random draws, R from the deficient
initialization loop, P = |Y|² computed from the still-zero Y, then
demix(Y, X, W). -/
def initState {F N C K : ℕ} (X : Fin F → Fin N → Fin C → CF)
    (T0 : Fin F → Fin K → Fin C → FV) (V0 : Fin K → Fin N → Fin C → FV)
    (W0opt : Option (Fin F → Fin C → Fin C → CF)) : IState F N C K :=
  let W := match W0opt with
    | none => fun _f => npEye C C
    | some W0 => W0
  let Y0 : Fin F → Fin N → Fin C → CF := fun _ _ _ => CF.zero
  { X := X, W0buf := W, W := W, T := T0, V := V0,
    Y := demix X W,
    R := initR T0 V0,
    P := fun f t s => CF.absSq (Y0 f t s),
    U := fun _ _ _ _ => FV.val 0,
    trace := [] }

/-- Everything after the argument checks: main loop, final demix and P,
the per-source variance loop (whose body `lambda_aux[n] = ...` raises
NameError when n_src = 1, since the loop variable n of the R-initialization
loop was never bound; otherwise it is a dead store), optional projection
back, and the returned pair (Y, W).  A python exception is modelled as none. -/
def ILRMAcore (F N C K : ℕ) (X : Fin F → Fin N → Fin C → CF)
    (T0 : Fin F → Fin K → Fin C → FV) (V0 : Fin K → Fin N → Fin C → FV)
    (W0opt : Option (Fin F → Fin C → Fin C → CF)) (n_iter : ℕ)
    (proj_back has_cb : Bool) (pb : PBfun F N C) :
    Option ((Fin F → Fin N → Fin C → CF) × (Fin F → Fin C → Fin C → CF)) :=
  let stF := runEpochs pb proj_back has_cb (initState X T0 V0 W0opt) n_iter
  let Y2 := demix X stF.W
  if C = 1 then none
  else
    let Y3 := if proj_back then applyPB pb Y2 X else Y2
    some (Y3, stF.W)

/-- A numpy ndarray of rank 3 with its shape. -/
structure NDArr3 (α : Type) where
  d0 : ℕ
  d1 : ℕ
  d2 : ℕ
  dat : Fin d0 → Fin d1 → Fin d2 → α

/-- The ILRMA entry point.  The input Xin is (nframes, nfrequencies,
nchannels) and is transposed to (freq, frames, chan) first; n_src defaults
to the channel count; `assert n_chan == n_src` is modelled by returning
none on mismatch.  The random T, V draws and the external projection_back
are passed in as T0, V0, pb.  The result is the separated array and, when
return_filters is set, the demixing matrices. -/
def ILRMA (Xin : NDArr3 CF) (n_src : Option ℕ) (n_iter : ℕ) (proj_back : Bool)
    (W0 : Option (Fin Xin.d1 → Fin Xin.d2 → Fin Xin.d2 → CF))
    (n_components : ℕ) (return_filters has_cb : Bool)
    (T0 : Fin Xin.d1 → Fin n_components → Fin Xin.d2 → FV)
    (V0 : Fin n_components → Fin Xin.d0 → Fin Xin.d2 → FV)
    (pb : PBfun Xin.d1 Xin.d0 Xin.d2) : Option (NDArr3 CF × Option (NDArr3 CF)) :=
  if n_src.getD Xin.d2 = Xin.d2 then
    match ILRMAcore Xin.d1 Xin.d0 Xin.d2 n_components (fun f t c => Xin.dat t f c)
        T0 V0 W0 n_iter proj_back has_cb pb with
    | none => none
    | some YW =>
        some (⟨Xin.d1, Xin.d0, Xin.d2, YW.1⟩,
          if return_filters then some ⟨Xin.d1, Xin.d2, Xin.d2, YW.2⟩ else none)
  else none

/-!
Structural preservation lemmas: which state fields each phase of the loop
leaves untouched.  The source loop writes T, V, R, U, W only; the epoch
step additionally appends to the callback trace; nothing in the loop ever
writes X, W0buf or P.
-/

theorem foldl_innerFreq_pres {F N C K : ℕ} (s : Fin C) (l : List (Fin F))
    (st : IState F N C K) :
    (l.foldl (innerFreq s) st).X = st.X ∧ (l.foldl (innerFreq s) st).W0buf = st.W0buf ∧
    (l.foldl (innerFreq s) st).P = st.P ∧ (l.foldl (innerFreq s) st).trace = st.trace := by
  induction l generalizing st with
  | nil => exact ⟨rfl, rfl, rfl, rfl⟩
  | cons f l ih => exact ih (innerFreq s st f)

theorem innerSrc_pres {F N C K : ℕ} (st : IState F N C K) (s : Fin C) :
    (innerSrc st s).X = st.X ∧ (innerSrc st s).W0buf = st.W0buf ∧
    (innerSrc st s).P = st.P ∧ (innerSrc st s).trace = st.trace :=
  foldl_innerFreq_pres s (List.finRange F) _

theorem foldl_innerSrc_pres {F N C K : ℕ} (l : List (Fin C)) (st : IState F N C K) :
    (l.foldl innerSrc st).X = st.X ∧ (l.foldl innerSrc st).W0buf = st.W0buf ∧
    (l.foldl innerSrc st).P = st.P ∧ (l.foldl innerSrc st).trace = st.trace := by
  induction l generalizing st with
  | nil => exact ⟨rfl, rfl, rfl, rfl⟩
  | cons s l ih =>
      have h1 := innerSrc_pres st s
      have h2 := ih (innerSrc st s)
      exact ⟨h2.1.trans h1.1, (h2.2.1).trans h1.2.1,
        (h2.2.2.1).trans h1.2.2.1, (h2.2.2.2).trans h1.2.2.2⟩

theorem epochStep_pres {F N C K : ℕ} (pb : PBfun F N C) (pj cb : Bool) (e : ℕ)
    (st : IState F N C K) :
    (epochStep pb pj cb e st).X = st.X ∧ (epochStep pb pj cb e st).W0buf = st.W0buf ∧
    (epochStep pb pj cb e st).P = st.P := by
  unfold epochStep
  split
  · exact ⟨(foldl_innerSrc_pres _ _).1, (foldl_innerSrc_pres _ _).2.1,
      (foldl_innerSrc_pres _ _).2.2.1⟩
  · exact ⟨(foldl_innerSrc_pres _ _).1, (foldl_innerSrc_pres _ _).2.1,
      (foldl_innerSrc_pres _ _).2.2.1⟩

theorem epochStep_trace {F N C K : ℕ} (pb : PBfun F N C) (pj : Bool) (e : ℕ)
    (st : IState F N C K) :
    (epochStep pb pj true e st).trace =
      st.trace ++ (if e % 10 = 0 then [(e, cbArg pb pj st)] else []) := by
  unfold epochStep
  split
  · next h =>
      rw [if_pos h.2]
      exact (foldl_innerSrc_pres _ _).2.2.2
  · next h =>
      have he : ¬ e % 10 = 0 := fun hh => h ⟨rfl, hh⟩
      rw [if_neg he, List.append_nil]
      exact (foldl_innerSrc_pres _ _).2.2.2

/-!
Concrete inputs used to evaluate the embedded program.  The mixture has
one frame, one frequency bin and two channels (frame vector (1, i)); the
random draws for T and V are taken to be 1 everywhere; one NMF component.
-/

/-- Concrete mixture input, shape (nframes, nfreq, nchan) = (1, 1, 2) with
frame vector (1, i). -/
def Xex : NDArr3 CF := ⟨1, 1, 2, fun _t _f c => if (c : ℕ) = 0 then CF.one else CF.ofQ 0 1⟩

/-- Concrete random draw for T: all ones. -/
def Tex : Fin 1 → Fin 1 → Fin 2 → FV := fun _ _ _ => FV.val 1

/-- Concrete random draw for V: all ones. -/
def Vex : Fin 1 → Fin 1 → Fin 2 → FV := fun _ _ _ => FV.val 1

/-- A concrete instance of the external projection_back interface. -/
def pbEx : PBfun 1 1 2 := fun _ _ _ _ => CF.one

/-- The concrete mixture after the transpose at the top of ILRMA. -/
def Xc : Fin 1 → Fin 1 → Fin 2 → CF := fun f t c => Xex.dat t f c

/-- The concrete state at the top of the main loop (W0 = None, so W is the
identity at every bin). -/
def st0ex : IState 1 1 2 1 := initState Xc Tex Vex none

/-- Concrete demixing matrix for the row-update evaluation: W[f] = [[1]]. -/
def Wex1 : Fin 1 → Fin 1 → CF := fun _ _ => CF.one

/-- Concrete auxiliary covariance for the row-update evaluation: U[f,s] = [[4]]. -/
def Uex1 : Fin 1 → Fin 1 → FV := fun _ _ => FV.val 4

/-- Concrete frame matrix for the covariance evaluation: one frame, two
channels, frame vector (1, i). -/
def Xc3 : Fin 1 → Fin 2 → CF := fun _ c => if (c : ℕ) = 0 then CF.one else CF.ofQ 0 1

/-- Concrete power-model slice for the covariance evaluation: R = 1. -/
def Rc3 : Fin 1 → FV := fun _ => FV.val 1

/-- Empty-component random draw for T (n_components = 0). -/
def Tex0 : Fin 1 → Fin 0 → Fin 2 → FV := fun _ k _ => k.elim0

/-- Empty-component random draw for V (n_components = 0). -/
def Vex0 : Fin 0 → Fin 1 → Fin 2 → FV := fun k _ _ => k.elim0

/-- A concrete full call of ILRMA (matched channels, zero iterations,
return_filters set). -/
def callEx : Option (NDArr3 CF × Option (NDArr3 CF)) :=
  ILRMA Xex none 0 false none 1 true false Tex Vex pbEx

/-- The value returned by callEx. -/
def resEx : NDArr3 CF × Option (NDArr3 CF) :=
  callEx.getD (⟨0, 0, 0, fun i _ _ => i.elim0⟩, none)

/-- The demixing-matrix array returned by callEx. -/
def WaEx : NDArr3 CF := resEx.2.getD ⟨0, 0, 0, fun i _ _ => i.elim0⟩

/-- C1: the claim states that at every outer iteration the power estimate P
consumed by the spectral-model update equals |X demixed by the W current at
the start of that iteration|².  In the code P is computed once from the
still-zero Y, before the initial demix, and never recomputed inside the
loop: at iteration 0 of the concrete run the consumed P entry is 0 while
the squared magnitude of the demixed mixture at the same entry is 1. -/
theorem claim_C1_P_not_recomputed_in_loop :
    (runEpochs pbEx false false st0ex 0).P 0 0 0 = FV.val 0 ∧
    CF.absSq (demix Xc (runEpochs pbEx false false st0ex 0).W 0 0 0) = FV.val 1 ∧
    FV.val (0 : Q) ≠ FV.val 1 := by decide

/-- C2: the claim states that the updated demixing row w satisfies the
normalization w^H U w = 1, the row having been divided by the square root
of its quadratic form under U.  The code multiplies by that square root
instead: at W = [[1]], U = [[4]], the solved row 1/4 is scaled to 1/8 and
its quadratic form is 1/16, not 1. -/
theorem claim_C2_row_normalization_violated :
    updateWrow Wex1 Uex1 0 0 = CF.ofQ ⟨1, 8⟩ 0 ∧
    quadForm Uex1 (updateWrow Wex1 Uex1 0) = CF.ofQ ⟨1, 16⟩ 0 ∧
    CF.ofQ ⟨1, 16⟩ 0 ≠ CF.ofQ 1 0 := by decide

/-- C3: the claim states that U is complex-valued and in particular retains
the imaginary parts of the weighted spatial covariance.  U is allocated by
np.zeros as a float64 array, so the assignment casts the complex covariance
to real: for the frame vector (1, i) with unit weight the covariance entry
(0, 1) has imaginary part -1, but the stored U entry is its real part 0. -/
theorem claim_C3_U_imaginary_discarded :
    (covU Xc3 Rc3 0 1).im = FV.val (Q.neg 1) ∧
    Ucast Xc3 Rc3 0 1 = FV.val 0 ∧
    FV.val (Q.neg 1) ≠ FV.val 0 := by decide

/-- C4: the claim states that after every outer iteration every entry of T
and V is at least the floor 0.001.  Because the R-initialization loop skips
the last source, its R slice is zero, the T update computes
0 * (0^-2) = 0 * inf = NaN, and the floor mask T < 0.001 is false on NaN:
after one iteration of the concrete run the last source's T and V entries
are NaN, which is not ≥ 0.001. -/
theorem claim_C4_floor_invariant_violated :
    (runEpochs pbEx false false st0ex 1).T 0 0 1 = FV.nan ∧
    (runEpochs pbEx false false st0ex 1).V 0 0 1 = FV.nan ∧
    FV.geQ ((runEpochs pbEx false false st0ex 1).T 0 0 1) ⟨1, 1000⟩ = false := by decide

/-- C5: the claim states that R = T·V holds for every source at
initialization.  The initialization loop runs over range(0, n_src - 1) and
skips the last source: in the concrete two-source state the last source's R
entry is 0 while the matrix product T·V at that entry is 1. -/
theorem claim_C5_initR_skips_last_source :
    st0ex.R 0 0 1 = FV.val 0 ∧
    dotTV Tex Vex 0 0 1 = FV.val 1 ∧
    FV.val (0 : Q) ≠ FV.val 1 := by decide

/-- C6 counterexample: the claim states that a configuration error is
reported whenever the iteration count or the component count is
non-positive.  A call with n_iter = 0 and n_components = 0 (and matched
channel/source counts) is not rejected: it runs zero iterations and
returns a result. -/
theorem claim_C6_counterexample_nonpositive_accepted :
    (ILRMA Xex none 0 false none 0 true false Tex0 Vex0 pbEx).isSome = true := by rfl

/-- C6 (amended): a configuration error is reported immediately — before
any iteration, with no computation performed — exactly when the resolved
source count differs from the channel count; such a call never returns a
result.  Non-positive iteration or component counts are not validated. -/
theorem claim_C6_amended_determined_guard (Xin : NDArr3 CF) (n_src : Option ℕ)
    (n_iter : ℕ) (pj : Bool) (W0 : Option (Fin Xin.d1 → Fin Xin.d2 → Fin Xin.d2 → CF))
    (K : ℕ) (rf cb : Bool) (T0 : Fin Xin.d1 → Fin K → Fin Xin.d2 → FV)
    (V0 : Fin K → Fin Xin.d0 → Fin Xin.d2 → FV) (pb : PBfun Xin.d1 Xin.d0 Xin.d2)
    (h : n_src.getD Xin.d2 ≠ Xin.d2) :
    ILRMA Xin n_src n_iter pj W0 K rf cb T0 V0 pb = none := by
  unfold ILRMA
  rw [if_neg h]

/-- C6 witness: a concrete mismatched call (n_src = 1 against 2 channels)
satisfies the guard hypothesis and returns no result. -/
theorem claim_C6_witness :
    ((some 1 : Option ℕ).getD Xex.d2 ≠ Xex.d2) ∧
    ILRMA Xex (some 1) 0 false none 1 true false Tex Vex pbEx = none :=
  ⟨by decide, claim_C6_amended_determined_guard Xex (some 1) 0 false none 1 true
    false Tex Vex pbEx (by decide)⟩

/-- C7: whenever ILRMA returns a result, the separated array has shape
(F, N, n_sources) with F and N the input's frequency and frame dimensions,
and the demixing-matrix array, when present, has shape
(F, n_sources, n_channels). -/
theorem claim_C7_output_shapes (Xin : NDArr3 CF) (n_src : Option ℕ) (n_iter : ℕ)
    (pj : Bool) (W0 : Option (Fin Xin.d1 → Fin Xin.d2 → Fin Xin.d2 → CF)) (K : ℕ)
    (rf cb : Bool) (T0 : Fin Xin.d1 → Fin K → Fin Xin.d2 → FV)
    (V0 : Fin K → Fin Xin.d0 → Fin Xin.d2 → FV) (pb : PBfun Xin.d1 Xin.d0 Xin.d2)
    (res : NDArr3 CF × Option (NDArr3 CF))
    (h : ILRMA Xin n_src n_iter pj W0 K rf cb T0 V0 pb = some res) :
    res.1.d0 = Xin.d1 ∧ res.1.d1 = Xin.d0 ∧ res.1.d2 = n_src.getD Xin.d2 ∧
    ∀ Wa, res.2 = some Wa →
      Wa.d0 = Xin.d1 ∧ Wa.d1 = n_src.getD Xin.d2 ∧ Wa.d2 = Xin.d2 := by
  unfold ILRMA at h
  split at h
  · next hc =>
      split at h
      · exact Option.noConfusion h
      · next YW heq =>
          cases h
          refine ⟨rfl, rfl, hc.symm, ?_⟩
          intro Wa hWa
          cases rf
          · exact Option.noConfusion hWa
          · cases hWa
            exact ⟨rfl, hc.symm, rfl⟩
  · exact Option.noConfusion h

/-- C7 witness: the concrete call callEx returns resEx, whose separated
array has shape (1, 1, 2) and whose demixing-matrix array has shape
(1, 2, 2). -/
theorem claim_C7_witness :
    callEx = some resEx ∧
    resEx.1.d0 = Xex.d1 ∧ resEx.1.d1 = Xex.d0 ∧ resEx.1.d2 = 2 ∧
    resEx.2 = some WaEx ∧ WaEx.d0 = 1 ∧ WaEx.d1 = 2 ∧ WaEx.d2 = 2 :=
  ⟨rfl,
   (claim_C7_output_shapes Xex none 0 false none 1 true false Tex Vex pbEx resEx rfl).1,
   (claim_C7_output_shapes Xex none 0 false none 1 true false Tex Vex pbEx resEx rfl).2.1,
   (claim_C7_output_shapes Xex none 0 false none 1 true false Tex Vex pbEx resEx rfl).2.2.1,
   rfl,
   ((claim_C7_output_shapes Xex none 0 false none 1 true false Tex Vex pbEx resEx rfl).2.2.2 WaEx rfl).1,
   ((claim_C7_output_shapes Xex none 0 false none 1 true false Tex Vex pbEx resEx rfl).2.2.2 WaEx rfl).2.1,
   ((claim_C7_output_shapes Xex none 0 false none 1 true false Tex Vex pbEx resEx rfl).2.2.2 WaEx rfl).2.2⟩

/-- C8: with a callback supplied, the callback-invocation trace after any
number of iterations consists of exactly the iteration indices that are
multiples of 10, each paired with the separated estimate current at that
iteration, projection-back scaled exactly when the option is enabled. -/
theorem claim_C8_callback_trace {F N C K : ℕ} (pb : PBfun F N C) (pj : Bool)
    (X : Fin F → Fin N → Fin C → CF) (T0 : Fin F → Fin K → Fin C → FV)
    (V0 : Fin K → Fin N → Fin C → FV) (W0opt : Option (Fin F → Fin C → Fin C → CF))
    (n_iter : ℕ) :
    (runEpochs pb pj true (initState X T0 V0 W0opt) n_iter).trace =
      ((List.range n_iter).filter (fun e => e % 10 = 0)).map
        (fun e => (e, cbArg pb pj (runEpochs pb pj true (initState X T0 V0 W0opt) e))) := by
  induction n_iter with
  | zero => rfl
  | succ k ih =>
      show (epochStep pb pj true k (runEpochs pb pj true (initState X T0 V0 W0opt) k)).trace = _
      rw [epochStep_trace, ih, List.range_succ, List.filter_append, List.map_append]
      by_cases hk : k % 10 = 0
      · simp [hk]
      · simp [hk]

/-- C9: throughout the main loop the power estimate P is identically zero:
it is computed once from the zero-initialized Y before the initial demix,
and no iteration ever writes it, so every spectral-model update reads only
zeros from P. -/
theorem claim_C9_P_identically_zero {F N C K : ℕ} (pb : PBfun F N C) (pj cb : Bool)
    (X : Fin F → Fin N → Fin C → CF) (T0 : Fin F → Fin K → Fin C → FV)
    (V0 : Fin K → Fin N → Fin C → FV) (W0opt : Option (Fin F → Fin C → Fin C → CF))
    (k : ℕ) :
    (runEpochs pb pj cb (initState X T0 V0 W0opt) k).P = fun _ _ _ => FV.val 0 := by
  induction k with
  | zero => rfl
  | succ k ih =>
      show (epochStep pb pj cb k (runEpochs pb pj cb (initState X T0 V0 W0opt) k)).P = _
      rw [(epochStep_pres pb pj cb k _).2.2, ih]

/-- C10: the caller's mixture X and supplied initial demixing matrix W0 are
never written: after any number of iterations the state's X equals the input
and the W0 buffer still holds the supplied matrix, even though W itself is
iterated on a copy. -/
theorem claim_C10_inputs_not_mutated {F N C K : ℕ} (pb : PBfun F N C) (pj cb : Bool)
    (X : Fin F → Fin N → Fin C → CF) (T0 : Fin F → Fin K → Fin C → FV)
    (V0 : Fin K → Fin N → Fin C → FV) (W0a : Fin F → Fin C → Fin C → CF) (k : ℕ) :
    (runEpochs pb pj cb (initState X T0 V0 (some W0a)) k).X = X ∧
    (runEpochs pb pj cb (initState X T0 V0 (some W0a)) k).W0buf = W0a := by
  induction k with
  | zero => exact ⟨rfl, rfl⟩
  | succ k ih =>
      exact ⟨((epochStep_pres pb pj cb k _).1).trans ih.1,
        ((epochStep_pres pb pj cb k _).2.1).trans ih.2⟩

end PyIlrma
